import Mathlib

/-!
Verification development for the `utils.js` module of feathers-hooks-common.

The module is plain ES-module JavaScript (hence strict mode) manipulating
dynamically typed values.  We shallowly embed the fragment of JavaScript the
module uses:

* `JVal` is a JSON-like value universe (undefined, null, booleans, integer
  numbers, strings, arrays, string-keyed objects).  Function values, floating
  point numbers, `NaN`, prototype-chain lookups and aliasing between distinct
  positions of a value are not exercised by the module's contract and are not
  modelled; values are trees.
* Property reads and writes are embedded as `Except Unit _` computations:
  `.error ()` stands for a thrown `TypeError` (member access on `null` or
  `undefined`, and strict-mode assignment to a property of a primitive).
* `typeof v === 'object'` is `isObjectType`, which is true for `null` —
  faithfully reproducing the classic JavaScript quirk the source inherits.
* Array element access uses canonical numeric index strings, mirroring the
  array-index semantics of JavaScript ("01" is a named property, not index 1).
  Assignment of a non-index property on an array (including `length`) is not
  exercised by the module's contract and is modelled as an error; a sparse
  write past the end pads with `undefined`, which is observation-equivalent
  to a real sparse array for element reads and `length`.
-/

set_option autoImplicit false

namespace FHC

/-- A JavaScript value as used by `utils.js`. -/
inductive JVal where
  | undefined
  | null
  | bool (b : Bool)
  | num (n : Int)
  | str (s : String)
  | arr (elems : List JVal)
  | obj (fields : List (String × JVal))

/-- JavaScript truthiness of a value. -/
def truthy : JVal → Bool
  | .undefined => false
  | .null => false
  | .bool b => b
  | .num n => n != 0
  | .str s => s != ""
  | .arr _ => true
  | .obj _ => true

/-- The test `typeof v === 'object'`.  True for `null` (the JavaScript quirk),
arrays and plain objects. -/
def isObjectType : JVal → Bool
  | .null => true
  | .arr _ => true
  | .obj _ => true
  | _ => false

/-- `Array.isArray`. -/
def isArr : JVal → Bool
  | .arr _ => true
  | _ => false

/-- Is the value the `undefined` constant. -/
def isUndefinedVal : JVal → Bool
  | .undefined => true
  | _ => false

/-- First-match lookup in an object's field list (JavaScript objects have
unique keys, so first-match agrees with key lookup). -/
def objLookup : List (String × JVal) → String → Option JVal
  | [], _ => none
  | (k', v) :: tl, k => if k' = k then some v else objLookup tl k

/-- Functional update of an object's field list: replace the binding if the
key is present (keeping its position, as JavaScript does), else append. -/
def objSet : List (String × JVal) → String → JVal → List (String × JVal)
  | [], k, v => [(k, v)]
  | (k', v') :: tl, k, v => if k' = k then (k, v) :: tl else (k', v') :: objSet tl k v

/-- Remove a key from an object's field list (the effect of `delete`). -/
def objDel : List (String × JVal) → String → List (String × JVal)
  | [], _ => []
  | (k', v') :: tl, k => if k' = k then tl else (k', v') :: objDel tl k

/-- Split a character list at every `'.'`, keeping empty chunks, exactly as
JavaScript's `path.split('.')` does (`""` gives one empty chunk, `"a..b"`
gives an empty middle chunk). -/
def splitDotsAux : List Char → List (List Char)
  | [] => [[]]
  | c :: rest =>
      match splitDotsAux rest with
      | hd :: tl => if c = '.' then [] :: hd :: tl else (c :: hd) :: tl
      | [] => []

/-- Source: `path.split('.')`. -/
def splitDots (path : String) : List String :=
  (splitDotsAux path.toList).map String.mk

/-- Parse a string as a canonical JavaScript array index: the decimal digits
of a natural number with no leading zeros (`"01"` is a named property, not
index 1; the 2^32-1 bound of real indices is beyond the modelled fragment). -/
def arrIdx? (k : String) : Option Nat :=
  match k.toList with
  | [] => none
  | c :: cs =>
      if (c :: cs).all Char.isDigit && (c != '0' || cs.isEmpty) then
        some ((c :: cs).foldl (fun a d => a * 10 + (d.toNat - 48)) 0)
      else none

/-- Write an array element, padding with `undefined` holes when the index is
past the end (a sparse JavaScript write reads back the same way). -/
def arrSet : List JVal → Nat → JVal → List JVal
  | [], 0, v => [v]
  | [], i + 1, v => .undefined :: arrSet [] i v
  | _ :: tl, 0, v => v :: tl
  | hd :: tl, i + 1, v => hd :: arrSet tl i v

/-- The rvalue member access `v[k]`: throws a `TypeError` on `null` and
`undefined`, looks up own properties of objects, arrays and strings, and
yields `undefined` on other primitives (boxing). -/
def getProp : JVal → String → Except Unit JVal
  | .undefined, _ => .error ()
  | .null, _ => .error ()
  | .obj fs, k => .ok ((objLookup fs k).getD .undefined)
  | .arr xs, k =>
      .ok (match arrIdx? k with
           | some i => (xs[i]?).getD .undefined
           | none => if k = "length" then .num xs.length else .undefined)
  | .str s, k =>
      .ok (if k = "length" then .num s.length else
           match arrIdx? k with
           | some i =>
               match s.toList[i]? with
               | some c => .str (String.mk [c])
               | none => .undefined
           | none => .undefined)
  | .bool _, _ => .ok .undefined
  | .num _, _ => .ok .undefined

/-- The test `v.hasOwnProperty(k)`: throws on `null`/`undefined`; objects own
their keys, arrays and strings own their valid indices and `length`, other
primitives own nothing relevant. -/
def hasOwn : JVal → String → Except Unit Bool
  | .undefined, _ => .error ()
  | .null, _ => .error ()
  | .obj fs, k => .ok (objLookup fs k).isSome
  | .arr xs, k =>
      .ok (k = "length" || (match arrIdx? k with
                            | some i => decide (i < xs.length)
                            | none => false))
  | .str s, k =>
      .ok (k = "length" || (match arrIdx? k with
                            | some i => decide (i < s.length)
                            | none => false))
  | .bool _, _ => .ok false
  | .num _, _ => .ok false

/-- The property assignment `v[k] = x` (strict mode): updates objects and
array elements; throws on `null`/`undefined` and on primitives; assignment of
a non-index array property is outside the modelled fragment. -/
def setProp : JVal → String → JVal → Except Unit JVal
  | .obj fs, k, v => .ok (.obj (objSet fs k v))
  | .arr xs, k, v =>
      match arrIdx? k with
      | some i => .ok (.arr (arrSet xs i v))
      | none => .error ()
  | _, _, _ => .error ()

/-- The statement `delete v[k]` (strict mode): removes an object key; on an
array a deleted element becomes a hole, which reads back as `undefined` with
the length unchanged; primitives are a no-op (unreachable in this module). -/
def deleteProp : JVal → String → Except Unit JVal
  | .undefined, _ => .error ()
  | .null, _ => .error ()
  | .obj fs, k => .ok (.obj (objDel fs k))
  | .arr xs, k =>
      .ok (.arr (match arrIdx? k with
                 | some i => if i < xs.length then xs.set i .undefined else xs
                 | none => xs))
  | v, _ => .ok v

/-- Source: `getByDot` body, applied to the already split segment list.
`path.split('.').reduce((obj1, part) => (typeof obj1 === 'object' ? obj1[part] : undefined), obj)`. -/
def getByDotSegs : JVal → List String → Except Unit JVal
  | cur, [] => .ok cur
  | cur, k :: rest =>
      if isObjectType cur then
        match getProp cur k with
        | .error e => .error e
        | .ok v => getByDotSegs v rest
      else getByDotSegs .undefined rest

/-- Source: `getByDot(obj, path)` (src/utils.js lines 13-16). -/
def getByDot (o : JVal) (path : String) : Except Unit JVal :=
  getByDotSegs o (splitDots path)

/-- The outcome of `setByDot`: the (functionally) mutated root together with
the value returned by the `reduce`. -/
structure SetResult where
  root : JVal
  ret : JVal

/-- The last step of `setByDot`'s reduce:
`obj1[part] = value; if (value === undefined && ifDelete) delete obj1[part];`. -/
def setAssign (cur : JVal) (k : String) (value : JVal) (ifDelete : Bool) : Except Unit JVal :=
  match setProp cur k value with
  | .error e => .error e
  | .ok c1 => if isUndefinedVal value && ifDelete then deleteProp c1 k else .ok c1

/-- Source: the `reduce` of `setByDot` (src/utils.js lines 34-50), as explicit
state passing.  On a non-final segment: if the current value does not own the
key, or the owned value is not `typeof 'object'`, a fresh `{}` is written
there; the segment's value is then descended into, and the in-place mutation
of that child is rendered by writing the recursion's root back at the key. -/
def setGo (value : JVal) (ifDelete : Bool) : JVal → List String → Except Unit SetResult
  | cur, [] => .ok ⟨cur, cur⟩
  | cur, [k] =>
      match setAssign cur k value ifDelete with
      | .error e => .error e
      | .ok r => .ok ⟨r, r⟩
  | cur, k :: k1 :: rest =>
      match hasOwn cur k, getProp cur k with
      | .error e, _ => .error e
      | .ok _, .error e => .error e
      | .ok hO, .ok ex =>
        let keep := hO && isObjectType ex
        match (if keep then .ok cur else setProp cur k (JVal.obj [])) with
        | .error e => .error e
        | .ok cur1 =>
          match setGo value ifDelete (if keep then ex else JVal.obj []) (k1 :: rest) with
          | .error e => .error e
          | .ok p =>
            match setProp cur1 k p.root with
            | .error e => .error e
            | .ok cur2 => .ok ⟨cur2, p.ret⟩

/-- Source: `setByDot(obj, path, value, ifDelete)` (src/utils.js lines 31-51). -/
def setByDot (o : JVal) (path : String) (value : JVal) (ifDelete : Bool) :
    Except Unit SetResult :=
  setGo value ifDelete o (splitDots path)

/-- Hook lifecycle phase (`hook.type`): `'before'` or `'after'`. -/
inductive Phase where
  | before
  | after
deriving DecidableEq

/-- Service operation (`hook.method`). -/
inductive Method where
  | find
  | get
  | create
  | update
  | patch
  | remove
deriving DecidableEq

/-- A hook invocation as probed by `utils.js`: `type`, `method`, `data` (the
input payload) and `result` (the output payload).  A field the framework did
not set is `undefined`. -/
structure Hook where
  type : Phase
  method : Method
  data : JVal
  result : JVal

/-- The `methods` argument of `checkContext`: `null`, a single method name,
or an array of method names (its JSDoc anticipates no other values). -/
inductive MethodsArg where
  | nil
  | one (m : Method)
  | many (ms : List Method)

/-- The list `myMethods` that `checkContext` tests membership against
(`Array.isArray(methods) ? methods : [methods]`, with `null` short-circuited
to no restriction, which tests the same as the empty list). -/
def normMethods : MethodsArg → List Method
  | .nil => []
  | .one m => [m]
  | .many ms => ms

/-- The two errors `checkContext` can throw, carrying the data its message
templates interpolate: the label and the expected phase, resp. the label and
the allowed method list (which the source serializes with `JSON.stringify`). -/
inductive CheckErr where
  | contextMismatch (label : String) (phase : Phase)
  | operationMismatch (label : String) (allowed : List Method)

/-- The part of `checkContext` after the phase test: `if (!methods) return;`
then `if (myMethods.length > 0 && myMethods.indexOf(hook.method) === -1)`. -/
def checkMethodsPart (hook : Hook) (methods : MethodsArg) (label : String) :
    Except CheckErr Unit :=
  match methods with
  | .nil => .ok ()
  | _ =>
      let myMethods := normMethods methods
      if 0 < myMethods.length ∧ hook.method ∉ myMethods then
        .error (.operationMismatch label myMethods)
      else .ok ()

/-- Source: `checkContext(hook, type, methods, label)` (src/utils.js
lines 80-93). -/
def checkContext (hook : Hook) (type : Option Phase) (methods : MethodsArg)
    (label : String) : Except CheckErr Unit :=
  match type with
  | some p =>
      if hook.type ≠ p then .error (.contextMismatch label p)
      else checkMethodsPart hook methods label
  | none => checkMethodsPart hook methods label

/-- Source: `getItems(hook)` (src/utils.js lines 104-107):
`const items = hook.type === 'before' ? hook.data : hook.result;`
`return items && hook.method === 'find' ? items.data || items : items;`. -/
def getItems (h : Hook) : Except Unit JVal :=
  let items := if h.type = .before then h.data else h.result
  if truthy items && h.method == .find then
    match getProp items "data" with
    | .error e => .error e
    | .ok d => .ok (if truthy d then d else items)
  else .ok items

/-- Source: `replaceItems(hook, items)` (src/utils.js lines 118-132). -/
def replaceItems (h : Hook) (items : JVal) : Except Unit Hook :=
  if h.type = .before then .ok { h with data := items }
  else if h.method == .find && truthy h.result then
    match getProp h.result "data" with
    | .error e => .error e
    | .ok d =>
      if truthy d then
        match items with
        | .arr xs =>
            match setProp h.result "data" (.arr xs) with
            | .error e => .error e
            | .ok r1 =>
                match setProp r1 "total" (.num xs.length) with
                | .error e => .error e
                | .ok r2 => .ok { h with result := r2 }
        | _ =>
            match setProp h.result "data" (.arr [items]) with
            | .error e => .error e
            | .ok r1 =>
                match setProp r1 "total" (.num 1) with
                | .error e => .error e
                | .ok r2 => .ok { h with result := r2 }
      else .ok { h with result := items }
  else .ok { h with result := items }

/-- The spec's hypothesis for the get/set round trip: along the path, every
non-final segment of the mapping is either absent or bound to a mapping (no
"collision with a non-mapping"). -/
def noCollide : List (String × JVal) → List String → Bool
  | _, [] => true
  | _, [_] => true
  | fs, k :: k1 :: rest =>
      match objLookup fs k with
      | none => true
      | some (.obj fs') => noCollide fs' (k1 :: rest)
      | some _ => false

/-- Read a field of a value when it is an object (used to state frame
conditions about `replaceItems`). -/
def objField? : JVal → String → Option JVal
  | .obj fs, k => objLookup fs k
  | _, _ => none

end FHC

namespace FHC

/-! Helper lemmas about the embedded JavaScript primitives. -/

theorem objLookup_objSet_self (fs : List (String × JVal)) (k : String) (v : JVal) :
    objLookup (objSet fs k v) k = some v := by
  induction fs with
  | nil => simp [objSet, objLookup]
  | cons hd tl ih =>
      obtain ⟨k', v'⟩ := hd
      by_cases hk : k' = k <;> simp [objSet, objLookup, hk, ih]

theorem objLookup_objSet_ne (fs : List (String × JVal)) (k k' : String) (v : JVal)
    (h : k' ≠ k) : objLookup (objSet fs k v) k' = objLookup fs k' := by
  induction fs with
  | nil => simp [objSet, objLookup, Ne.symm h]
  | cons hd tl ih =>
      obtain ⟨k0, v0⟩ := hd
      by_cases hk : k0 = k
      · subst hk
        simp [objSet, objLookup, Ne.symm h]
      · simp [objSet, objLookup, hk, ih]

theorem objSet_objSet (fs : List (String × JVal)) (k : String) (a b : JVal) :
    objSet (objSet fs k a) k b = objSet fs k b := by
  induction fs with
  | nil => simp [objSet]
  | cons hd tl ih =>
      obtain ⟨k0, v0⟩ := hd
      by_cases hk : k0 = k <;> simp [objSet, hk, ih]

theorem arrSet_get (i : Nat) (xs : List JVal) (v : JVal) :
    (arrSet xs i v)[i]? = some v := by
  induction i generalizing xs with
  | zero => cases xs <;> simp [arrSet]
  | succ i ih => cases xs <;> simp [arrSet, ih]

/-- A successful property write yields a value of `typeof 'object'` from
which the written property reads back. -/
theorem setProp_getProp (w w' : JVal) (k : String) (v : JVal)
    (h : setProp w k v = .ok w') :
    isObjectType w' = true ∧ getProp w' k = .ok v := by
  cases w with
  | obj fs =>
      simp only [setProp, Except.ok.injEq] at h
      subst h
      simp [isObjectType, getProp, objLookup_objSet_self]
  | arr xs =>
      simp only [setProp] at h
      cases hi : arrIdx? k with
      | none => rw [hi] at h; exact absurd h (by simp)
      | some i =>
          rw [hi] at h
          simp only [Except.ok.injEq] at h
          subst h
          simp [isObjectType, getProp, hi, arrSet_get]
  | undefined => exact absurd h (by simp [setProp])
  | null => exact absurd h (by simp [setProp])
  | bool b => exact absurd h (by simp [setProp])
  | num n => exact absurd h (by simp [setProp])
  | str s => exact absurd h (by simp [setProp])

theorem getByDotSegs_undefined (parts : List String) :
    getByDotSegs .undefined parts = .ok .undefined := by
  induction parts with
  | nil => rfl
  | cons k rest ih => simpa [getByDotSegs, isObjectType] using ih

theorem noCollide_nilFields (k : String) (rest : List String) :
    noCollide [] (k :: rest) = true := by
  cases rest <;> simp [noCollide, objLookup]

@[simp] theorem truthy_obj (fs : List (String × JVal)) : truthy (.obj fs) = true := rfl

@[simp] theorem truthy_arr (xs : List JVal) : truthy (.arr xs) = true := rfl

theorem getByDotSegs_set_step (fs : List (String × JVal)) (k : String) (v' : JVal)
    (rest : List String) :
    getByDotSegs (.obj (objSet fs k v')) (k :: rest) = getByDotSegs v' rest := by
  simp [getByDotSegs, isObjectType, getProp, objLookup_objSet_self]

/-- When `setByDot`'s reduce succeeds, the value it returns is the one found
in the mutated root under all but the last path segment: the parent of the
final segment, not (in general) the root. -/
theorem setGo_parent (v : JVal) (d : Bool) :
    ∀ (parts : List String) (cur : JVal) (pr : SetResult),
      setGo v d cur parts = .ok pr →
      getByDotSegs pr.root parts.dropLast = .ok pr.ret := by
  intro parts
  induction parts with
  | nil =>
      intro cur pr h
      simp only [setGo, Except.ok.injEq] at h
      subst h
      rfl
  | cons k rest ih =>
      intro cur pr h
      cases rest with
      | nil =>
          simp only [setGo] at h
          cases hA : setAssign cur k v d with
          | error e => rw [hA] at h; exact absurd h (by simp)
          | ok r =>
              rw [hA] at h
              simp only [Except.ok.injEq] at h
              subst h
              rfl
      | cons k1 rest' =>
          simp only [setGo] at h
          split at h
          · exact absurd h (by simp)
          · exact absurd h (by simp)
          · rename_i hO ex heqH heqG
            split at h
            · exact absurd h (by simp)
            · rename_i cur1 heq1
              split at h
              · exact absurd h (by simp)
              · rename_i p heq2
                split at h
                · exact absurd h (by simp)
                · rename_i cur2 heq3
                  simp only [Except.ok.injEq] at h
                  subst h
                  obtain ⟨hObj, hGet⟩ := setProp_getProp _ _ _ _ heq3
                  simp only [List.dropLast, getByDotSegs, hObj, if_true, hGet]
                  exact ih _ _ heq2

/-- The set/get round trip over the mutated root: when no non-final segment
of the path hits a non-mapping value in the input mapping, `setByDot`'s
reduce succeeds and reading the mutated root back along the same path yields
the written value. -/
theorem setGo_roundtrip (v : JVal) :
    ∀ (parts : List String) (fs : List (String × JVal)),
      parts ≠ [] → noCollide fs parts = true →
      Except.bind (setGo v false (.obj fs) parts)
        (fun pr => getByDotSegs pr.root parts) = .ok v := by
  intro parts
  induction parts with
  | nil => intro fs hne _; exact absurd rfl hne
  | cons k rest ih =>
      intro fs _ hnc
      cases rest with
      | nil =>
          simp [setGo, setAssign, setProp, Bool.and_false, Except.bind,
            getByDotSegs, isObjectType, getProp, objLookup_objSet_self]
      | cons k1 rest' =>
          cases hL : objLookup fs k with
          | none =>
              have hrec := ih [] (List.cons_ne_nil _ _) (noCollide_nilFields k1 rest')
              cases hS : setGo v false (.obj []) (k1 :: rest') with
              | error e => rw [hS] at hrec; exact absurd hrec (by simp [Except.bind])
              | ok pr =>
                  rw [hS] at hrec
                  simp only [Except.bind] at hrec
                  have hgo : setGo v false (.obj fs) (k :: k1 :: rest') =
                      .ok ⟨.obj (objSet fs k pr.root), pr.ret⟩ := by
                    simp [setGo, hasOwn, getProp, hL, isObjectType, setProp, hS,
                      objSet_objSet]
                  rw [hgo]
                  simp only [Except.bind]
                  rw [getByDotSegs_set_step]
                  exact hrec
          | some w =>
              cases w with
              | obj fs' =>
                  have hnc' : noCollide fs' (k1 :: rest') = true := by
                    simpa [noCollide, hL] using hnc
                  have hrec := ih fs' (List.cons_ne_nil _ _) hnc'
                  cases hS : setGo v false (.obj fs') (k1 :: rest') with
                  | error e => rw [hS] at hrec; exact absurd hrec (by simp [Except.bind])
                  | ok pr =>
                      rw [hS] at hrec
                      simp only [Except.bind] at hrec
                      have hgo : setGo v false (.obj fs) (k :: k1 :: rest') =
                          .ok ⟨.obj (objSet fs k pr.root), pr.ret⟩ := by
                        simp [setGo, hasOwn, getProp, hL, isObjectType, setProp, hS]
                      rw [hgo]
                      simp only [Except.bind]
                      rw [getByDotSegs_set_step]
                      exact hrec
              | undefined => exact absurd hnc (by simp [noCollide, hL])
              | null => exact absurd hnc (by simp [noCollide, hL])
              | bool b => exact absurd hnc (by simp [noCollide, hL])
              | num n => exact absurd hnc (by simp [noCollide, hL])
              | str s => exact absurd hnc (by simp [noCollide, hL])
              | arr xs => exact absurd hnc (by simp [noCollide, hL])

theorem checkMethodsPart_eq (h : Hook) (ms : MethodsArg) (l : String) :
    checkMethodsPart h ms l =
      if normMethods ms = [] ∨ h.method ∈ normMethods ms then .ok ()
      else .error (.operationMismatch l (normMethods ms)) := by
  cases ms with
  | nil => simp [checkMethodsPart, normMethods]
  | one m =>
      by_cases hm : h.method = m <;>
        simp [checkMethodsPart, normMethods, hm]
  | many ms' =>
      cases ms' with
      | nil => simp [checkMethodsPart, normMethods]
      | cons m tl =>
          by_cases hm : h.method ∈ m :: tl <;>
            simp [checkMethodsPart, normMethods, hm]

/-- C4: `checkContext(invocation, expectedPhase, expectedOperations, label)`
fails if and only if either the expected phase is non-null and differs from
the invocation's phase (a `ContextMismatch` carrying the label and expected
phase), or the phase check passes, the normalized operation list is non-empty
and misses the invocation's operation (an `OperationMismatch` carrying the
label and the allowed list); a null or empty `expectedOperations` allows any
operation. -/
theorem checkContext_fails_iff (h : Hook) (t : Option Phase) (ms : MethodsArg)
    (l : String) :
    (∀ p : Phase, checkContext h t ms l = .error (.contextMismatch l p) ↔
        (t = some p ∧ h.type ≠ p))
  ∧ (∀ A : List Method, checkContext h t ms l = .error (.operationMismatch l A) ↔
        (A = normMethods ms ∧ (t = none ∨ t = some h.type) ∧ A ≠ [] ∧ h.method ∉ A))
  ∧ (checkContext h t ms l = .ok () ↔
        ((t = none ∨ t = some h.type) ∧
         (normMethods ms = [] ∨ h.method ∈ normMethods ms))) := by
  cases t with
  | none =>
      rw [show checkContext h none ms l = checkMethodsPart h ms l from rfl,
        checkMethodsPart_eq]
      by_cases hm : normMethods ms = [] ∨ h.method ∈ normMethods ms
      · rw [if_pos hm]
        refine ⟨fun p => ?_, fun A => ?_, ?_⟩
        · simp
        · constructor
          · intro hc; exact absurd hc (by simp)
          · rintro ⟨rfl, -, hne, hni⟩
            rcases hm with hm | hm
            · exact absurd hm hne
            · exact absurd hm hni
        · simp [hm]
      · rw [if_neg hm]
        rw [not_or] at hm
        obtain ⟨hm1, hm2⟩ := hm
        refine ⟨fun p => ?_, fun A => ?_, ?_⟩
        · simp
        · constructor
          · intro hc
            simp only [Except.error.injEq, CheckErr.operationMismatch.injEq] at hc
            obtain ⟨-, hA⟩ := hc
            subst hA
            exact ⟨rfl, Or.inl rfl, hm1, hm2⟩
          · rintro ⟨rfl, -, -, -⟩; rfl
        · constructor
          · intro hc; exact absurd hc (by simp)
          · rintro ⟨-, hor⟩
            rcases hor with h1 | h2
            · exact absurd h1 hm1
            · exact absurd h2 hm2
  | some p0 =>
      by_cases hp : h.type = p0
      · rw [show checkContext h (some p0) ms l =
            (if h.type ≠ p0 then .error (.contextMismatch l p0)
             else checkMethodsPart h ms l) from rfl,
          if_neg (by simp [hp]), checkMethodsPart_eq]
        by_cases hm : normMethods ms = [] ∨ h.method ∈ normMethods ms
        · rw [if_pos hm]
          refine ⟨fun p => ?_, fun A => ?_, ?_⟩
          · constructor
            · intro hc; exact absurd hc (by simp)
            · rintro ⟨hpp, hne⟩
              simp only [Option.some.injEq] at hpp
              subst hpp
              exact absurd hp hne
          · constructor
            · intro hc; exact absurd hc (by simp)
            · rintro ⟨rfl, -, hne, hni⟩
              rcases hm with hm | hm
              · exact absurd hm hne
              · exact absurd hm hni
          · simp [hm, hp]
        · rw [if_neg hm]
          rw [not_or] at hm
          obtain ⟨hm1, hm2⟩ := hm
          refine ⟨fun p => ?_, fun A => ?_, ?_⟩
          · constructor
            · intro hc; exact absurd hc (by simp)
            · rintro ⟨hpp, hne⟩
              simp only [Option.some.injEq] at hpp
              subst hpp
              exact absurd hp hne
          · constructor
            · intro hc
              simp only [Except.error.injEq, CheckErr.operationMismatch.injEq] at hc
              obtain ⟨-, hA⟩ := hc
              subst hA
              exact ⟨rfl, Or.inr (by rw [hp]), hm1, hm2⟩
            · rintro ⟨rfl, -, -, -⟩; rfl
          · constructor
            · intro hc; exact absurd hc (by simp)
            · rintro ⟨-, hor⟩
              rcases hor with h1 | h2
              · exact absurd h1 hm1
              · exact absurd h2 hm2
      · rw [show checkContext h (some p0) ms l =
            (if h.type ≠ p0 then .error (.contextMismatch l p0)
             else checkMethodsPart h ms l) from rfl,
          if_pos (by simp [hp])]
        refine ⟨fun p => ?_, fun A => ?_, ?_⟩
        · constructor
          · intro hc
            simp only [Except.error.injEq, CheckErr.contextMismatch.injEq] at hc
            obtain ⟨-, hpp⟩ := hc
            subst hpp
            exact ⟨rfl, hp⟩
          · rintro ⟨hpp, -⟩
            simp only [Option.some.injEq] at hpp
            subst hpp
            rfl
        · constructor
          · intro hc; exact absurd hc (by simp)
          · rintro ⟨-, hor, -, -⟩
            rcases hor with h1 | h2
            · exact absurd h1 (by simp)
            · simp only [Option.some.injEq] at h2
              exact absurd h2.symm hp
        · constructor
          · intro hc; exact absurd hc (by simp)
          · rintro ⟨hor, -⟩
            rcases hor with h1 | h2
            · exact absurd h1 (by simp)
            · simp only [Option.some.injEq] at h2
              exact absurd h2.symm hp

theorem splitDotsAux_ne_nil (cs : List Char) : splitDotsAux cs ≠ [] := by
  induction cs with
  | nil => simp [splitDotsAux]
  | cons c rest ih =>
      cases hs : splitDotsAux rest with
      | nil => exact absurd hs ih
      | cons hd tl =>
          by_cases hc : c = '.' <;> simp [splitDotsAux, hs, hc]

theorem splitDots_ne_nil (path : String) : splitDots path ≠ [] := by
  simp [splitDots, splitDotsAux_ne_nil]

/-- C1 (counterexample): `setByDot({}, "a.b", 1, false)` mutates the root to
`{a: {b: 1}}` but returns the inner object `{b: 1}`, which is not equal to
the mutated root — the claim that `setByDot` returns the root object is
false for multi-segment paths. -/
theorem setByDot_return_not_root_cex :
    setByDot (.obj []) "a.b" (.num 1) false =
      .ok ⟨.obj [("a", .obj [("b", .num 1)])], .obj [("b", .num 1)]⟩ ∧
    JVal.obj [("b", JVal.num 1)] ≠ JVal.obj [("a", JVal.obj [("b", JVal.num 1)])] := by
  refine ⟨rfl, ?_⟩
  simp

/-- C1 (amended): `setByDot` mutates the root, and the value it returns is
the object found in the mutated root under all but the last path segment —
the parent mapping of the final segment, which coincides with the root only
for single-segment paths. -/
theorem setByDot_returns_parent (o : JVal) (path : String) (v : JVal) (d : Bool)
    (pr : SetResult) (h : setByDot o path v d = .ok pr) :
    getByDotSegs pr.root ((splitDots path).dropLast) = .ok pr.ret :=
  setGo_parent v d (splitDots path) o pr h

/-- C1 (witness): the amended statement applied to `setByDot({}, "a.b", 1, false)`. -/
theorem setByDot_returns_parent_witness :
    getByDotSegs (.obj [("a", .obj [("b", .num 1)])]) ["a"] =
      .ok (.obj [("b", .num 1)]) :=
  setByDot_returns_parent (.obj []) "a.b" (.num 1) false
    ⟨.obj [("a", .obj [("b", .num 1)])], .obj [("b", .num 1)]⟩ rfl

/-- C2 (counterexample): the literal composition
`getByDot(setByDot(m, p, v, false), p)` fails for `m = {}`, `p = "a.b"`,
`v = 1`: `setByDot` returns the inner object `{b: 1}`, and reading `"a.b"`
from it yields `undefined`, not `1`. -/
theorem getByDot_of_setByDot_return_cex :
    setByDot (.obj []) "a.b" (.num 1) false =
      .ok ⟨.obj [("a", .obj [("b", .num 1)])], .obj [("b", .num 1)]⟩ ∧
    getByDot (.obj [("b", .num 1)]) "a.b" = .ok .undefined ∧
    JVal.undefined ≠ JVal.num 1 := by
  refine ⟨rfl, rfl, ?_⟩
  simp

/-- C2 (amended): for a mapping `m`, path `p` and value `v` such that no
non-final segment of `p` collides with a non-mapping in `m`, `setByDot`
succeeds and applying `getByDot` with `p` to the *mutated root* yields
exactly `v` (the value `setByDot` itself returns is the final parent, not
the root). -/
theorem setByDot_then_getByDot (m : List (String × JVal)) (path : String)
    (v : JVal) (h : noCollide m (splitDots path) = true) :
    Except.bind (setByDot (.obj m) path v false)
      (fun pr => getByDot pr.root path) = .ok v := by
  simp only [setByDot, getByDot]
  exact setGo_roundtrip v (splitDots path) m (splitDots_ne_nil path) h

/-- C2 (witness): the amended statement applied to `m = {}`, `p = "a.b"`,
`v = 3`. -/
theorem setByDot_then_getByDot_witness :
    Except.bind (setByDot (.obj []) "a.b" (.num 3) false)
      (fun pr => getByDot pr.root "a.b") = .ok (.num 3) :=
  setByDot_then_getByDot [] "a.b" (.num 3) rfl

/-- C7 (counterexample): `getByDot({a: null}, "a.b")` throws a `TypeError`
(`typeof null === 'object'`, so the code dereferences `null.b`), refuting
the claim that `getByDot` raises no exception for any root and path. -/
theorem getByDot_null_throws_cex :
    getByDot (.obj [("a", .null)]) "a.b" = .error () ∧
    (Except.error () : Except Unit JVal) ≠ .ok .undefined := by
  refine ⟨rfl, ?_⟩
  simp

/-- C7 (amended): an intermediate value whose JavaScript `typeof` is not
`'object'` (numbers, strings, booleans, `undefined`) silently makes the
result `undefined` for all remaining segments, with no exception; but a
`null` intermediate (whose `typeof` is `'object'`) with segments remaining
raises a `TypeError`. -/
theorem getByDot_nonmapping_intermediate :
    (∀ (w : JVal) (k : String) (rest : List String), isObjectType w = false →
        getByDotSegs w (k :: rest) = .ok .undefined)
  ∧ (∀ (k : String) (rest : List String),
        getByDotSegs .null (k :: rest) = .error ()) := by
  constructor
  · intro w k rest hw
    simp [getByDotSegs, hw, getByDotSegs_undefined]
  · intro k rest
    simp [getByDotSegs, isObjectType, getProp]

/-- C7 (witness): the amended statement applied to the number intermediate
`1` with one remaining segment, and to `null` with one remaining segment. -/
theorem getByDot_nonmapping_intermediate_witness :
    getByDotSegs (.num 1) ["b"] = .ok .undefined ∧
    getByDotSegs .null ["b"] = .error () :=
  ⟨getByDot_nonmapping_intermediate.1 (.num 1) "b" [] rfl,
   getByDot_nonmapping_intermediate.2 "b" []⟩

/-- C8 (counterexample): the claim says an owned `null` (a non-mapping) under
a non-final segment is replaced by a fresh empty mapping; in fact
`typeof null === 'object'`, so `setByDot({a: null}, "a.b", 1, false)`
descends into `null` and throws instead of producing `{a: {b: 1}}` (which is
what the replacement behavior produces when the value is `{}`). -/
theorem setByDot_null_intermediate_cex :
    setByDot (.obj [("a", .null)]) "a.b" (.num 1) false = .error () ∧
    setByDot (.obj [("a", .obj [])]) "a.b" (.num 1) false =
      .ok ⟨.obj [("a", .obj [("b", .num 1)])], .obj [("b", .num 1)]⟩ ∧
    (Except.error () : Except Unit SetResult) ≠
      .ok ⟨.obj [("a", .obj [("b", .num 1)])], .obj [("b", .num 1)]⟩ := by
  refine ⟨rfl, rfl, ?_⟩
  simp

/-- C8 (amended): under a non-final segment, when the current mapping does
not own the key or the owned value has JavaScript `typeof` other than
`'object'` (numbers, strings, booleans, `undefined` — but not `null`), the
value is replaced by a fresh empty mapping before descending: `setByDot`
behaves exactly as if run on the mapping with `{}` written at that key.
Owned values of `typeof 'object'` (mappings, but also `null` and arrays) are
descended into unchanged. -/
theorem setByDot_intermediate_step (fs : List (String × JVal)) (k k1 : String)
    (rest : List String) (v : JVal) (d : Bool) :
    (isObjectType ((objLookup fs k).getD .undefined) = false →
      setGo v d (.obj fs) (k :: k1 :: rest) =
        setGo v d (.obj (objSet fs k (.obj []))) (k :: k1 :: rest))
  ∧ (∀ ex, objLookup fs k = some ex → isObjectType ex = true →
      setGo v d (.obj fs) (k :: k1 :: rest) =
        Except.map (fun p => ⟨.obj (objSet fs k p.root), p.ret⟩)
          (setGo v d ex (k1 :: rest))) := by
  constructor
  · intro hno
    cases hQ : objLookup fs k with
    | none =>
        cases hp : setGo v d (JVal.obj []) (k1 :: rest) with
        | error e =>
            simp [setGo, hasOwn, getProp, hQ, isObjectType, setProp, hp,
              objLookup_objSet_self, objSet_objSet]
        | ok p =>
            simp [setGo, hasOwn, getProp, hQ, isObjectType, setProp, hp,
              objLookup_objSet_self, objSet_objSet]
    | some w =>
        rw [hQ] at hno
        simp only [Option.getD] at hno
        cases w with
        | null => exact absurd hno (by simp [isObjectType])
        | arr xs => exact absurd hno (by simp [isObjectType])
        | obj fs2 => exact absurd hno (by simp [isObjectType])
        | undefined =>
            cases hp : setGo v d (JVal.obj []) (k1 :: rest) with
            | error e =>
                simp [setGo, hasOwn, getProp, hQ, isObjectType, setProp, hp,
                  objLookup_objSet_self, objSet_objSet]
            | ok p =>
                simp [setGo, hasOwn, getProp, hQ, isObjectType, setProp, hp,
                  objLookup_objSet_self, objSet_objSet]
        | bool b =>
            cases hp : setGo v d (JVal.obj []) (k1 :: rest) with
            | error e =>
                simp [setGo, hasOwn, getProp, hQ, isObjectType, setProp, hp,
                  objLookup_objSet_self, objSet_objSet]
            | ok p =>
                simp [setGo, hasOwn, getProp, hQ, isObjectType, setProp, hp,
                  objLookup_objSet_self, objSet_objSet]
        | num n =>
            cases hp : setGo v d (JVal.obj []) (k1 :: rest) with
            | error e =>
                simp [setGo, hasOwn, getProp, hQ, isObjectType, setProp, hp,
                  objLookup_objSet_self, objSet_objSet]
            | ok p =>
                simp [setGo, hasOwn, getProp, hQ, isObjectType, setProp, hp,
                  objLookup_objSet_self, objSet_objSet]
        | str s =>
            cases hp : setGo v d (JVal.obj []) (k1 :: rest) with
            | error e =>
                simp [setGo, hasOwn, getProp, hQ, isObjectType, setProp, hp,
                  objLookup_objSet_self, objSet_objSet]
            | ok p =>
                simp [setGo, hasOwn, getProp, hQ, isObjectType, setProp, hp,
                  objLookup_objSet_self, objSet_objSet]
  · intro ex hL hty
    cases hp : setGo v d ex (k1 :: rest) with
    | error e =>
        simp [setGo, hasOwn, getProp, hL, hty, hp, Except.map]
    | ok p =>
        simp [setGo, hasOwn, getProp, hL, hty, hp, Except.map, setProp]

/-- C8 (witness): the amended statement applied to a number value (replaced
by `{}`) and to an owned mapping value (descended into unchanged). -/
theorem setByDot_intermediate_step_witness :
    setGo (.num 1) false (.obj [("a", .num 7)]) ["a", "b"] =
      setGo (.num 1) false (.obj (objSet [("a", .num 7)] "a" (.obj []))) ["a", "b"] ∧
    setGo (.num 1) false (.obj [("a", .obj [("c", .num 9)])]) ["a", "b"] =
      Except.map (fun p => ⟨.obj (objSet [("a", .obj [("c", .num 9)])] "a" p.root), p.ret⟩)
        (setGo (.num 1) false (.obj [("c", .num 9)]) ["b"]) :=
  ⟨(setByDot_intermediate_step [("a", .num 7)] "a" "b" [] (.num 1) false).1 rfl,
   (setByDot_intermediate_step [("a", .obj [("c", .num 9)])] "a" "b" [] (.num 1) false).2
     (.obj [("c", .num 9)]) rfl rfl⟩

/-- C3 (code-bug evidence): on the before-phase find invocation with
`inputPayload = {data: 5}`, `getItems` returns the unwrapped `5`, not the
input payload `{data: 5}` that the function's own documentation ("hook.data
if type=before") and the claim prescribe: the `items.data || items`
unwrapping is applied to `hook.data` as well whenever `method === 'find'`. -/
theorem getItems_before_find_unwraps :
    getItems ⟨.before, .find, .obj [("data", .num 5)], .undefined⟩ = .ok (.num 5) ∧
    (Except.ok (JVal.num 5) : Except Unit JVal) ≠
      .ok (.obj [("data", JVal.num 5)]) := by
  refine ⟨rfl, ?_⟩
  simp

/-- C6: `setByDot({}, "a.b.c", undefined, true)` leaves the root equal to
`{a: {b: {}}}` — the intermediate empty mappings created on the way down are
not rolled back even though the final key is deleted. -/
theorem setByDot_delete_keeps_intermediates :
    Except.map SetResult.root (setByDot (.obj []) "a.b.c" .undefined true) =
      .ok (.obj [("a", .obj [("b", .obj [])])]) := rfl

/-- C5 (counterexample): an after-phase find invocation whose outputPayload
*has* an `items` field, but a falsy one (`{items: false}`), does not take the
envelope branch: `replaceItems` with the non-sequence `5` overwrites
`outputPayload` wholesale with `5` instead of producing
`{items: [5], total: 1}`. -/
theorem replaceItems_falsy_items_cex :
    replaceItems ⟨.after, .find, .undefined, .obj [("data", .bool false)]⟩ (.num 5) =
      .ok ⟨.after, .find, .undefined, .num 5⟩ ∧
    JVal.num 5 ≠ JVal.obj [("data", JVal.arr [JVal.num 5]), ("total", JVal.num 1)] := by
  refine ⟨rfl, ?_⟩
  simp

/-- C5 (amended): for an after-phase find invocation whose outputPayload has
a *truthy* `items` field, `replaceItems` updates that same envelope in
place: a sequence is stored under `items` with `total` set to its length,
and a non-sequence is wrapped as a one-element sequence with `total = 1`;
the outputPayload remains the original envelope with only those two fields
rewritten. -/
theorem replaceItems_envelope (h : Hook) (fs : List (String × JVal)) (items : JVal)
    (hT : h.type = .after) (hM : h.method = .find) (hR : h.result = .obj fs)
    (hD : truthy ((objLookup fs "data").getD .undefined) = true) :
    (∀ xs, items = .arr xs →
        replaceItems h items =
          .ok { h with
            result := JVal.obj (objSet (objSet fs "data" (.arr xs)) "total" (.num xs.length)) })
  ∧ (isArr items = false →
        replaceItems h items =
          .ok { h with
            result := JVal.obj (objSet (objSet fs "data" (.arr [items])) "total" (.num 1)) }) := by
  constructor
  · rintro xs rfl
    simp [replaceItems, hT, hM, hR, hD, getProp, setProp]
  · intro hni
    cases items with
    | arr xs => exact absurd hni (by simp [isArr])
    | undefined => simp [replaceItems, hT, hM, hR, hD, getProp, setProp]
    | null => simp [replaceItems, hT, hM, hR, hD, getProp, setProp]
    | bool b => simp [replaceItems, hT, hM, hR, hD, getProp, setProp]
    | num n => simp [replaceItems, hT, hM, hR, hD, getProp, setProp]
    | str s => simp [replaceItems, hT, hM, hR, hD, getProp, setProp]
    | obj fs2 => simp [replaceItems, hT, hM, hR, hD, getProp, setProp]

/-- C5 (witness): the amended statement applied to the envelope
`{items: [1, 2], total: 2}` with a sequence `[7]` and with the
non-sequence `5`. -/
theorem replaceItems_envelope_witness :
    replaceItems ⟨.after, .find, .undefined,
        .obj [("data", .arr [.num 1, .num 2]), ("total", .num 2)]⟩ (.arr [.num 7]) =
      .ok ⟨.after, .find, .undefined,
        .obj [("data", .arr [.num 7]), ("total", .num 1)]⟩ ∧
    replaceItems ⟨.after, .find, .undefined,
        .obj [("data", .arr [.num 1, .num 2]), ("total", .num 2)]⟩ (.num 5) =
      .ok ⟨.after, .find, .undefined,
        .obj [("data", .arr [.num 5]), ("total", .num 1)]⟩ :=
  ⟨(replaceItems_envelope ⟨.after, .find, .undefined,
        .obj [("data", .arr [.num 1, .num 2]), ("total", .num 2)]⟩
      [("data", .arr [.num 1, .num 2]), ("total", .num 2)] (.arr [.num 7])
      rfl rfl rfl rfl).1 [.num 7] rfl,
   (replaceItems_envelope ⟨.after, .find, .undefined,
        .obj [("data", .arr [.num 1, .num 2]), ("total", .num 2)]⟩
      [("data", .arr [.num 1, .num 2]), ("total", .num 2)] (.num 5)
      rfl rfl rfl rfl).2 rfl⟩

/-- C9: when `replaceItems` takes the paginated-envelope branch, it only
rewrites the envelope's `items` and `total` fields: the invocation's phase,
operation and input payload are unchanged, and every other field of the
envelope reads back as before. -/
theorem replaceItems_frame (h : Hook) (fs : List (String × JVal)) (items : JVal)
    (hT : h.type = .after) (hM : h.method = .find) (hR : h.result = .obj fs)
    (hD : truthy ((objLookup fs "data").getD .undefined) = true) :
    Except.map (fun h2 => (h2.type, h2.method, h2.data)) (replaceItems h items) =
      .ok (h.type, h.method, h.data)
  ∧ ∀ k, k ≠ "data" → k ≠ "total" →
      Except.map (fun h2 => objField? h2.result k) (replaceItems h items) =
        .ok (objLookup fs k) := by
  have key : ∃ D T, replaceItems h items =
      .ok { h with result := JVal.obj (objSet (objSet fs "data" D) "total" T) } := by
    cases items with
    | arr xs =>
        exact ⟨.arr xs, .num xs.length,
          by simp [replaceItems, hT, hM, hR, hD, getProp, setProp]⟩
    | undefined =>
        exact ⟨.arr [.undefined], .num 1,
          by simp [replaceItems, hT, hM, hR, hD, getProp, setProp]⟩
    | null =>
        exact ⟨.arr [.null], .num 1,
          by simp [replaceItems, hT, hM, hR, hD, getProp, setProp]⟩
    | bool b =>
        exact ⟨.arr [.bool b], .num 1,
          by simp [replaceItems, hT, hM, hR, hD, getProp, setProp]⟩
    | num n =>
        exact ⟨.arr [.num n], .num 1,
          by simp [replaceItems, hT, hM, hR, hD, getProp, setProp]⟩
    | str s =>
        exact ⟨.arr [.str s], .num 1,
          by simp [replaceItems, hT, hM, hR, hD, getProp, setProp]⟩
    | obj fs2 =>
        exact ⟨.arr [.obj fs2], .num 1,
          by simp [replaceItems, hT, hM, hR, hD, getProp, setProp]⟩
  obtain ⟨D, T, hEq⟩ := key
  constructor
  · rw [hEq]; rfl
  · intro k hk1 hk2
    rw [hEq]
    simp only [Except.map, objField?]
    rw [objLookup_objSet_ne _ _ _ _ hk2, objLookup_objSet_ne _ _ _ _ hk1]

/-- C9 (witness): the frame statement applied to the envelope
`{items: [1], total: 1, limit: 10}` replaced with the non-sequence `5`,
read back at the untouched field `limit`. -/
theorem replaceItems_frame_witness :
    Except.map (fun h2 => (h2.type, h2.method, h2.data))
      (replaceItems ⟨.after, .find, .undefined,
        .obj [("data", .arr [.num 1]), ("total", .num 1), ("limit", .num 10)]⟩
        (.num 5)) = .ok (.after, .find, .undefined) ∧
    Except.map (fun h2 => objField? h2.result "limit")
      (replaceItems ⟨.after, .find, .undefined,
        .obj [("data", .arr [.num 1]), ("total", .num 1), ("limit", .num 10)]⟩
        (.num 5)) = .ok (some (.num 10)) :=
  ⟨(replaceItems_frame ⟨.after, .find, .undefined,
      .obj [("data", .arr [.num 1]), ("total", .num 1), ("limit", .num 10)]⟩
      [("data", .arr [.num 1]), ("total", .num 1), ("limit", .num 10)] (.num 5)
      rfl rfl rfl rfl).1,
   (replaceItems_frame ⟨.after, .find, .undefined,
      .obj [("data", .arr [.num 1]), ("total", .num 1), ("limit", .num 10)]⟩
      [("data", .arr [.num 1]), ("total", .num 1), ("limit", .num 10)] (.num 5)
      rfl rfl rfl rfl).2 "limit" (by decide) (by decide)⟩

/-- C10: envelope detection is by truthiness, not presence — for an
after-phase find invocation whose outputPayload is an object owning a falsy
`items` field, `getItems` returns the whole outputPayload (not the falsy
field), and `replaceItems` overwrites the outputPayload wholesale with the
new items instead of updating `items`/`total`. -/
theorem items_truthiness_detection (h : Hook) (fs : List (String × JVal))
    (d items : JVal) (hT : h.type = .after) (hM : h.method = .find)
    (hR : h.result = .obj fs) (hD : objLookup fs "data" = some d)
    (hF : truthy d = false) :
    getItems h = .ok (.obj fs) ∧
    replaceItems h items = .ok { h with result := items } := by
  constructor
  · simp [getItems, hT, hM, hR, getProp, hD, hF]
  · simp [replaceItems, hT, hM, hR, getProp, hD, hF]

/-- C10 (witness): the statement applied to the invocation with
`outputPayload = {items: false}` and new items `5`. -/
theorem items_truthiness_detection_witness :
    getItems ⟨.after, .find, .undefined, .obj [("data", .bool false)]⟩ =
      .ok (.obj [("data", .bool false)]) ∧
    replaceItems ⟨.after, .find, .undefined, .obj [("data", .bool false)]⟩ (.num 5) =
      .ok ⟨.after, .find, .undefined, .num 5⟩ :=
  items_truthiness_detection ⟨.after, .find, .undefined, .obj [("data", .bool false)]⟩
    [("data", .bool false)] (.bool false) (.num 5) rfl rfl rfl rfl rfl

end FHC
